import Mathlib

/-!
Verification of the probe-and-statistics engine of vmtest.

The statistical core of src/vmtest.c is embedded shallowly: C `double`
arithmetic is modelled by exact real arithmetic over `ℝ`, sample arrays
(`double *values, int count`) by `List ℝ`, and each C function by a Lean
definition of the same name.  All definitions are translated directly from
the source; `skewness_spec` and `kurtosis_spec` are the only exceptions,
stated from the specification text for a refinement comparison.
-/

namespace Vmtest

open Real

/-- From src/vmtest.c `calculate_mean` (lines 372-379): sum of the samples
divided by the count, `0.0` for an empty sequence. -/
noncomputable def calculate_mean (values : List ℝ) : ℝ :=
  if values.length = 0 then 0
  else values.sum / (values.length : ℝ)

/-- From src/vmtest.c `calculate_variance` (lines 381-389): sample variance
with divisor `count - 1`, `0.0` when `count < 2`. -/
noncomputable def calculate_variance (values : List ℝ) (mean : ℝ) : ℝ :=
  if values.length < 2 then 0
  else ((values.map fun v => (v - mean) * (v - mean)).sum) / ((values.length : ℝ) - 1)

/-- From src/vmtest.c `calculate_std_dev` (lines 391-393). -/
noncomputable def calculate_std_dev (variance : ℝ) : ℝ :=
  Real.sqrt variance

/-- From src/vmtest.c `calculate_cv` (lines 395-398): `std_dev / mean`,
`0.0` when `mean == 0.0`. -/
noncomputable def calculate_cv (std_dev mean : ℝ) : ℝ :=
  if mean = 0 then 0 else std_dev / mean

/-- From src/vmtest.c `calculate_skewness` (lines 400-421): standardized
third moment with small-sample bias correction, clamped to `[-100, 100]`,
`0.0` when `count < 3` or `std_dev <= 0`. -/
noncomputable def calculate_skewness (values : List ℝ) (mean std_dev : ℝ) : ℝ :=
  if values.length < 3 ∨ std_dev ≤ 0 then 0
  else
    let sum := (values.map fun v =>
      ((v - mean) / std_dev) * ((v - mean) / std_dev) * ((v - mean) / std_dev)).sum
    let skew := sum / (values.length : ℝ)
    let skew2 := if 2 < values.length then
        skew * Real.sqrt ((values.length : ℝ) * ((values.length : ℝ) - 1)) /
          ((values.length : ℝ) - 2)
      else skew
    let skew3 := if skew2 > 100 then 100 else skew2
    if skew3 < -100 then -100 else skew3

/-- From src/vmtest.c `calculate_kurtosis` (lines 423-445): excess kurtosis
(raw fourth standardized moment minus 3) with small-sample bias correction,
clamped to `[-10, 1000]`, `0.0` when `count < 4` or `std_dev <= 0`. -/
noncomputable def calculate_kurtosis (values : List ℝ) (mean std_dev : ℝ) : ℝ :=
  if values.length < 4 ∨ std_dev ≤ 0 then 0
  else
    let sum := (values.map fun v =>
      ((v - mean) / std_dev) * ((v - mean) / std_dev) *
        ((v - mean) / std_dev) * ((v - mean) / std_dev)).sum
    let kurt := sum / (values.length : ℝ) - 3
    let kurt2 := if 3 < values.length then
        (((values.length : ℝ) - 1) / (((values.length : ℝ) - 2) * ((values.length : ℝ) - 3))) *
          (((values.length : ℝ) + 1) * kurt + 6)
      else kurt
    let kurt3 := if kurt2 > 1000 then 1000 else kurt2
    if kurt3 < -10 then -10 else kurt3

/-- From src/vmtest.c `calculate_entropy` (lines 460-472): the bin index of a
sample, `(int)((values[i] - min_val) / bin_width)`, clamped to the last of the
20 bins when it reaches `bins`. -/
noncomputable def entropyBin (min_val bin_width x : ℝ) : ℤ :=
  if 20 ≤ ⌊(x - min_val) / bin_width⌋ then 19 else ⌊(x - min_val) / bin_width⌋

/-- From src/vmtest.c `calculate_entropy` (lines 467-472): the histogram count
`hist[i]`, the number of samples whose clamped bin index is `i`. -/
noncomputable def histCount (min_val bin_width : ℝ) (i : ℤ) (values : List ℝ) : ℕ :=
  (values.map (entropyBin min_val bin_width)).count i

/-- From src/vmtest.c `calculate_entropy` (lines 447-485): Shannon entropy in
bits of the 20-bin histogram of the samples over `[min, max]`; `0.0` for an
empty sequence or when all samples are equal.  The C loop seeds min/max with
`values[0]` and folds over the rest. -/
noncomputable def calculate_entropy : List ℝ → ℝ
  | [] => 0
  | v :: vs =>
      let min_val := vs.foldl min v
      let max_val := vs.foldl max v
      if min_val = max_val then 0
      else
        let bin_width := (max_val - min_val) / 20
        let n : ℝ := ((v :: vs).length : ℝ)
        (Finset.range 20).sum fun i =>
          let h := histCount min_val bin_width (i : ℤ) (v :: vs)
          if 0 < h then -(((h : ℝ) / n) * Real.logb 2 ((h : ℝ) / n)) else 0

/-- From src/vmtest.c `calculate_pmi_safe` (lines 542-565): the physical
machine index `log10((kurtosis * skewness) / variance)` with guards returning
the sentinel `-10.0` on any non-positive input or ratio, and the final value
clamped to `[-20, 10]`. -/
noncomputable def calculate_pmi_safe (kurtosis skewness variance : ℝ) : ℝ :=
  if variance ≤ 0 ∨ kurtosis ≤ 0 ∨ skewness ≤ 0 then -10
  else
    let numerator := kurtosis * skewness
    if numerator ≤ 0 then -10
    else
      let ratio := numerator / variance
      if ratio ≤ 0 then -10
      else
        let pmi := Real.logb 10 ratio
        let pmi2 := if pmi > 10 then 10 else pmi
        if pmi2 < -20 then -20 else pmi2

/-- From src/vmtest.c `measure_cache_behavior` (lines 778-787): the pair
`(cache_access_ratio, cache_miss_ratio)` derived from the two mean latencies,
with the neutral fallback `(1.0, 0.0)` when the cache-friendly mean is not
positive. -/
noncomputable def cache_ratios (cache_friendly_mean cache_unfriendly_mean : ℝ) : ℝ × ℝ :=
  if cache_friendly_mean > 0 then
    (cache_unfriendly_mean / cache_friendly_mean,
      (cache_unfriendly_mean - cache_friendly_mean) / cache_friendly_mean)
  else
    (1, 0)

/-- From src/vmtest.c `analyze_vm_indicators` (lines 882-962): the weighted
confidence score accumulated over the four indicator rules, with the C
thresholds 0.25 (scheduling CV), -5.0 and 1.0 (PMI bands), 0.5 (cache miss),
and the entropy band `[0.5, 2.0)`. -/
noncomputable def analyze_vm_indicators ( scheduling_thread_cv physical_machine_index
    cache_miss_rate memory_address_entropy : ℝ) : ℝ :=
  let confidence_score : ℝ := 0
  let confidence_score :=
    if scheduling_thread_cv > 0.25 then confidence_score + 0.3 else confidence_score
  let confidence_score :=
    if physical_machine_index < -5 then confidence_score + 0.4
    else if physical_machine_index < 1 then confidence_score + 0.1
    else confidence_score
  let confidence_score :=
    if cache_miss_rate > 0.5 then confidence_score + 0.15 else confidence_score
  let confidence_score :=
    if memory_address_entropy < 0.5 then confidence_score
    else if memory_address_entropy < 2 then confidence_score + 0.15
    else confidence_score
  confidence_score

/-- The three verdict categories printed by `analyze_vm_indicators`
(lines 955-961). -/
inductive VerdictCategory where
  | Virtual : VerdictCategory
  | Ambiguous : VerdictCategory
  | Physical : VerdictCategory

/-- From src/vmtest.c `analyze_vm_indicators` (lines 955-961): the categorical
verdict chosen from the confidence score by the two cut-points. -/
noncomputable def classify_verdict (vm_likelihood : ℝ) : VerdictCategory :=
  if vm_likelihood > 0.6 then VerdictCategory.Virtual
  else if vm_likelihood > 0.3 then VerdictCategory.Ambiguous
  else VerdictCategory.Physical

/-- The CV-reduction pipeline applied by each probe, e.g. src/vmtest.c
`measure_timing_basic` (lines 512-518): mean, sample variance, standard
deviation, then coefficient of variation. -/
noncomputable def probe_cv (timings : List ℝ) : ℝ :=
  calculate_cv (calculate_std_dev (calculate_variance timings (calculate_mean timings)))
    (calculate_mean timings)

/-- Modelled from the spec (section 4.2): the bias-corrected skewness formula
`(sum of standardized cubes over n) * sqrt(n*(n-1))/(n-2)`, clamped to
`[-100, 100]`, stated for the refinement comparison in claim C4. -/
noncomputable def skewness_spec (values : List ℝ) (mean std_dev : ℝ) : ℝ :=
  let n : ℝ := (values.length : ℝ)
  let raw := (values.map fun v =>
    ((v - mean) / std_dev) * ((v - mean) / std_dev) * ((v - mean) / std_dev)).sum / n
  max (-100) (min 100 (raw * Real.sqrt (n * (n - 1)) / (n - 2)))

/-- Modelled from the spec (section 4.2): the bias-corrected excess kurtosis
formula `((n-1)/((n-2)*(n-3))) * ((n+1)*kurt_raw + 6)` where `kurt_raw` is
the raw fourth standardized moment minus 3, clamped to `[-10, 1000]`, stated
for the refinement comparison in claim C4. -/
noncomputable def kurtosis_spec (values : List ℝ) (mean std_dev : ℝ) : ℝ :=
  let n : ℝ := (values.length : ℝ)
  let kurt_raw := (values.map fun v =>
    ((v - mean) / std_dev) * ((v - mean) / std_dev) *
      ((v - mean) / std_dev) * ((v - mean) / std_dev)).sum / n - 3
  max (-10) (min 1000 (((n - 1) / ((n - 2) * (n - 3))) * ((n + 1) * kurt_raw + 6)))

/-- C9: for an empty sequence the calculator interface is total:
`calculate_mean` returns `0.0` and `calculate_entropy` returns `0.0`. -/
theorem C9_empty_input_totality :
    calculate_mean ([] : List ℝ) = 0 ∧ calculate_entropy ([] : List ℝ) = 0 := by
  constructor
  · simp [calculate_mean]
  · rfl

/-- C3: length guards of the moment calculator: a sequence of length `< 2`
gives variance `0.0`, length `< 3` gives skewness `0.0`, length `< 4` gives
kurtosis `0.0`, regardless of the mean and std_dev arguments supplied. -/
theorem C3_short_sequence_guards :
    ∀ (values : List ℝ) (mean std_dev : ℝ),
      (values.length < 2 → calculate_variance values mean = 0) ∧
      (values.length < 3 → calculate_skewness values mean std_dev = 0) ∧
      (values.length < 4 → calculate_kurtosis values mean std_dev = 0) := by
  intro values mean std_dev
  refine ⟨fun h => ?_, fun h => ?_, fun h => ?_⟩
  · simp [calculate_variance, h]
  · simp [calculate_skewness, h]
  · simp [calculate_kurtosis, h]

/-- Witness for C3 at the concrete sequences `[1]`, `[1, 2]`, `[1, 2, 3]`. -/
theorem C3_short_sequence_guards_witness :
    calculate_variance [1] 0 = 0 ∧ calculate_skewness [1, 2] 0 1 = 0 ∧
      calculate_kurtosis [1, 2, 3] 0 1 = 0 :=
  ⟨(C3_short_sequence_guards [1] 0 1).1 (by norm_num),
    (C3_short_sequence_guards [1, 2] 0 1).2.1 (by norm_num),
    (C3_short_sequence_guards [1, 2, 3] 0 1).2.2 (by norm_num)⟩

/-- C8: the cache-ratio fallback of `measure_cache_behavior`: a non-positive
cache-friendly mean yields exactly `(1.0, 0.0)`; a positive one yields the
ratio and the relative difference. -/
theorem C8_cache_ratio_fallback :
    ∀ cache_friendly_mean cache_unfriendly_mean : ℝ,
      (cache_friendly_mean ≤ 0 →
        cache_ratios cache_friendly_mean cache_unfriendly_mean = (1, 0)) ∧
      (0 < cache_friendly_mean →
        cache_ratios cache_friendly_mean cache_unfriendly_mean =
          (cache_unfriendly_mean / cache_friendly_mean,
            (cache_unfriendly_mean - cache_friendly_mean) / cache_friendly_mean)) := by
  intro f u
  constructor
  · intro h
    simp only [cache_ratios, if_neg (not_lt.mpr h)]
  · intro h
    simp only [cache_ratios, if_pos h]

/-- Witness for C8 at the concrete means `0, 5` and `2, 5`. -/
theorem C8_cache_ratio_fallback_witness :
    cache_ratios 0 5 = (1, 0) ∧ cache_ratios 2 5 = (5 / 2, (5 - 2) / 2) :=
  ⟨(C8_cache_ratio_fallback 0 5).1 le_rfl, (C8_cache_ratio_fallback 2 5).2 (by norm_num)⟩

/-- C5: output-range invariants: for every sequence and arguments the variance
is nonnegative, the skewness lies in `[-100, 100]` and the kurtosis lies in
`[-10, 1000]`. -/
theorem C5_output_range_invariants :
    ∀ (values : List ℝ) (mean std_dev : ℝ),
      0 ≤ calculate_variance values mean ∧
      (-100 ≤ calculate_skewness values mean std_dev ∧
        calculate_skewness values mean std_dev ≤ 100) ∧
      (-10 ≤ calculate_kurtosis values mean std_dev ∧
        calculate_kurtosis values mean std_dev ≤ 1000) := by
  intro values mean std_dev
  refine ⟨?_, ?_, ?_⟩
  · unfold calculate_variance
    split_ifs with h
    · exact le_refl 0
    · apply div_nonneg
      · apply List.sum_nonneg
        intro x hx
        simp only [List.mem_map] at hx
        obtain ⟨v, _, rfl⟩ := hx
        exact mul_self_nonneg _
      · push_neg at h
        have h2 : (2 : ℝ) ≤ (values.length : ℝ) := by exact_mod_cast h
        linarith
  · simp only [calculate_skewness]
    split_ifs <;> constructor <;> linarith
  · simp only [calculate_kurtosis]
    split_ifs <;> constructor <;> linarith

/-- Helper: pulling a conditional weight increment out of an accumulator. -/
lemma weight_term (x w : ℝ) (p : Prop) [Decidable p] :
    (if p then x + w else x) = x + (if p then w else 0) := by
  split_ifs <;> simp

/-- Helper: the three-way PMI band of `analyze_vm_indicators` as an additive
contribution. -/
lemma pmi_term (x b : ℝ) :
    (if b < -5 then x + 0.4 else if b < 1 then x + 0.1 else x) =
      x + (if b < -5 then (0.4 : ℝ) else if b < 1 then 0.1 else 0) := by
  split_ifs <;> simp

/-- Helper: the entropy band of `analyze_vm_indicators` (sanity floor 0.5,
threshold 2.0) as an additive contribution. -/
lemma entropy_term (x d : ℝ) :
    (if d < 0.5 then x else if d < 2 then x + 0.15 else x) =
      x + (if 0.5 ≤ d ∧ d < 2 then (0.15 : ℝ) else 0) := by
  rcases lt_or_le d 0.5 with h1 | h1
  · rw [if_pos h1, if_neg fun hc => absurd hc.1 (not_le.mpr h1), add_zero]
  · rcases lt_or_le d 2 with h2 | h2
    · rw [if_neg (not_lt.mpr h1), if_pos h2, if_pos ⟨h1, h2⟩]
    · rw [if_neg (not_lt.mpr h1), if_neg (not_lt.mpr h2),
        if_neg fun hc => absurd hc.2 (not_lt.mpr h2), add_zero]

/-- C1: `calculate_pmi_safe` returns the sentinel `-10.0` whenever the
variance, kurtosis, skewness or the ratio is non-positive; otherwise it
returns `log10((kurtosis*skewness)/variance)` clamped to `[-20, 10]`; the
result always lies in `[-20, 10]` (so it is never NaN or Inf); and at
`kurtosis = 5, skewness = 2, variance = 10` it returns exactly `0.0`. -/
theorem C1_pmi_guard_and_clamp :
    (∀ kurtosis skewness variance : ℝ,
      ((variance ≤ 0 ∨ kurtosis ≤ 0 ∨ skewness ≤ 0 ∨
          kurtosis * skewness / variance ≤ 0) →
        calculate_pmi_safe kurtosis skewness variance = -10) ∧
      (0 < variance → 0 < kurtosis → 0 < skewness →
        calculate_pmi_safe kurtosis skewness variance =
          max (-20) (min 10 (Real.logb 10 (kurtosis * skewness / variance)))) ∧
      (-20 ≤ calculate_pmi_safe kurtosis skewness variance ∧
        calculate_pmi_safe kurtosis skewness variance ≤ 10)) ∧
    calculate_pmi_safe 5 2 10 = 0 := by
  constructor
  · intro kurtosis skewness variance
    refine ⟨?_, ?_, ?_⟩
    · intro h
      by_cases hg : variance ≤ 0 ∨ kurtosis ≤ 0 ∨ skewness ≤ 0
      · simp only [calculate_pmi_safe, if_pos hg]
      · push_neg at hg
        obtain ⟨hv, hk, hs⟩ := hg
        have hr : 0 < kurtosis * skewness / variance := div_pos (mul_pos hk hs) hv
        rcases h with h | h | h | h <;> linarith
    · intro hv hk hs
      have hg : ¬(variance ≤ 0 ∨ kurtosis ≤ 0 ∨ skewness ≤ 0) := by
        push_neg
        exact ⟨hv, hk, hs⟩
      have hnum : ¬(kurtosis * skewness ≤ 0) := not_le.mpr (mul_pos hk hs)
      have hratio : ¬(kurtosis * skewness / variance ≤ 0) :=
        not_le.mpr (div_pos (mul_pos hk hs) hv)
      simp only [calculate_pmi_safe, if_neg hg, if_neg hnum, if_neg hratio]
      rw [max_def, min_def]
      split_ifs <;> linarith
    · simp only [calculate_pmi_safe]
      split_ifs <;> constructor <;> linarith
  · simp only [calculate_pmi_safe]
    norm_num

/-- Witness for C1: the sentinel at a negative variance, and the exact value
at the concrete record `kurtosis = 5, skewness = 2, variance = 10`. -/
theorem C1_pmi_witness :
    calculate_pmi_safe 5 2 (-1) = -10 ∧ calculate_pmi_safe 5 2 10 = 0 :=
  ⟨(C1_pmi_guard_and_clamp.1 5 2 (-1)).1 (Or.inl (by norm_num)),
    C1_pmi_guard_and_clamp.2⟩

/-- C2: the confidence score of `analyze_vm_indicators` is the sum of the
weights of the triggered rules (0.3, 0.4-or-0.1, 0.15, 0.15 with the 0.5
sanity floor on entropy), always lies in `[0, 1]`, and the verdict is
assigned by the two cut-points 0.6 and 0.3. -/
theorem C2_confidence_score_and_verdict :
    ∀ scheduling_thread_cv physical_machine_index cache_miss_rate
        memory_address_entropy : ℝ,
      analyze_vm_indicators scheduling_thread_cv physical_machine_index cache_miss_rate
          memory_address_entropy =
        (if scheduling_thread_cv > 0.25 then (0.3 : ℝ) else 0) +
          (if physical_machine_index < -5 then (0.4 : ℝ)
            else if physical_machine_index < 1 then 0.1 else 0) +
          (if cache_miss_rate > 0.5 then (0.15 : ℝ) else 0) +
          (if 0.5 ≤ memory_address_entropy ∧ memory_address_entropy < 2 then (0.15 : ℝ)
            else 0) ∧
      0 ≤ analyze_vm_indicators scheduling_thread_cv physical_machine_index cache_miss_rate
          memory_address_entropy ∧
      analyze_vm_indicators scheduling_thread_cv physical_machine_index cache_miss_rate
          memory_address_entropy ≤ 1 ∧
      classify_verdict (analyze_vm_indicators scheduling_thread_cv physical_machine_index
          cache_miss_rate memory_address_entropy) =
        (if analyze_vm_indicators scheduling_thread_cv physical_machine_index cache_miss_rate
            memory_address_entropy > 0.6 then VerdictCategory.Virtual
          else if analyze_vm_indicators scheduling_thread_cv physical_machine_index
              cache_miss_rate memory_address_entropy > 0.3 then VerdictCategory.Ambiguous
          else VerdictCategory.Physical) := by
  intro a b c d
  have heq : analyze_vm_indicators a b c d =
      (if a > 0.25 then (0.3 : ℝ) else 0) +
        (if b < -5 then (0.4 : ℝ) else if b < 1 then 0.1 else 0) +
        (if c > 0.5 then (0.15 : ℝ) else 0) +
        (if 0.5 ≤ d ∧ d < 2 then (0.15 : ℝ) else 0) := by
    simp only [analyze_vm_indicators]
    rw [entropy_term, weight_term, pmi_term, weight_term]
    ring
  refine ⟨heq, ?_, ?_, rfl⟩
  · rw [heq]
    split_ifs <;> norm_num
  · rw [heq]
    split_ifs <;> norm_num

/-- C4: on sequences long enough and with positive std_dev, the skewness is
the raw standardized third moment with the `sqrt(n*(n-1))/(n-2)` bias
correction then the clamp, and the kurtosis is the bias-corrected excess
kurtosis `((n-1)/((n-2)*(n-3))) * ((n+1)*kurt_raw + 6)` then the clamp,
exactly as the spec formulas state them. -/
theorem C4_bias_corrected_moments :
    ∀ (values : List ℝ) (mean std_dev : ℝ),
      (3 ≤ values.length → 0 < std_dev →
        calculate_skewness values mean std_dev = skewness_spec values mean std_dev) ∧
      (4 ≤ values.length → 0 < std_dev →
        calculate_kurtosis values mean std_dev = kurtosis_spec values mean std_dev) := by
  intro values mean std_dev
  constructor
  · intro h3 hs
    have hg : ¬(values.length < 3 ∨ std_dev ≤ 0) := by
      push_neg
      exact ⟨h3, hs⟩
    have h2 : 2 < values.length := by omega
    simp only [calculate_skewness, skewness_spec, if_neg hg, if_pos h2]
    rw [max_def, min_def]
    split_ifs <;> linarith
  · intro h4 hs
    have hg : ¬(values.length < 4 ∨ std_dev ≤ 0) := by
      push_neg
      exact ⟨h4, hs⟩
    have h3 : 3 < values.length := by omega
    simp only [calculate_kurtosis, kurtosis_spec, if_neg hg, if_pos h3]
    rw [max_def, min_def]
    split_ifs <;> linarith

/-- Witness for C4 at the concrete sequences `[1, 2, 3]` and `[1, 2, 3, 4]`
with `mean = 0`, `std_dev = 1`. -/
theorem C4_bias_corrected_moments_witness :
    calculate_skewness [1, 2, 3] 0 1 = skewness_spec [1, 2, 3] 0 1 ∧
      calculate_kurtosis [1, 2, 3, 4] 0 1 = kurtosis_spec [1, 2, 3, 4] 0 1 :=
  ⟨(C4_bias_corrected_moments [1, 2, 3] 0 1).1 (by norm_num) (by norm_num),
    (C4_bias_corrected_moments [1, 2, 3, 4] 0 1).2 (by norm_num) (by norm_num)⟩

/-- Helper: folding `min` over a constant list leaves the seed. -/
lemma foldl_min_replicate (m : ℕ) (c : ℝ) : (List.replicate m c).foldl min c = c := by
  induction m with
  | zero => rfl
  | succ k ih =>
      simpa only [List.replicate_succ, List.foldl_cons, min_self] using ih

/-- Helper: folding `max` over a constant list leaves the seed. -/
lemma foldl_max_replicate (m : ℕ) (c : ℝ) : (List.replicate m c).foldl max c = c := by
  induction m with
  | zero => rfl
  | succ k ih =>
      simpa only [List.replicate_succ, List.foldl_cons, max_self] using ih

/-- Helper: the mean of a non-empty constant sequence is the constant. -/
lemma mean_replicate (n : ℕ) (c : ℝ) (h : 1 ≤ n) :
    calculate_mean (List.replicate n c) = c := by
  have hn : (n : ℝ) ≠ 0 := Nat.cast_ne_zero.mpr (by omega)
  simp only [calculate_mean, List.length_replicate, List.sum_replicate, nsmul_eq_mul]
  rw [if_neg (by omega)]
  field_simp

/-- Helper: the sample variance of a constant sequence about the constant
is zero. -/
lemma variance_replicate (n : ℕ) (c : ℝ) :
    calculate_variance (List.replicate n c) c = 0 := by
  simp only [calculate_variance, List.map_replicate, List.length_replicate]
  split_ifs with h
  · rfl
  · simp

/-- C6: for every non-empty constant sequence the variance is `0.0`, the
coefficient of variation computed through the probe pipeline is `0.0` (also
when the constant, hence the mean, is `0.0`), and the entropy is `0.0`. -/
theorem C6_constant_sequence :
    ∀ (n : ℕ) (c : ℝ), 1 ≤ n →
      calculate_variance (List.replicate n c) (calculate_mean (List.replicate n c)) = 0 ∧
      probe_cv (List.replicate n c) = 0 ∧
      calculate_entropy (List.replicate n c) = 0 := by
  intro n c h
  have hm := mean_replicate n c h
  have hv : calculate_variance (List.replicate n c)
      (calculate_mean (List.replicate n c)) = 0 := by
    rw [hm]
    exact variance_replicate n c
  refine ⟨hv, ?_, ?_⟩
  · simp only [probe_cv, hv, calculate_std_dev, Real.sqrt_zero, calculate_cv]
    split_ifs <;> simp
  · obtain ⟨m, rfl⟩ : ∃ m, n = m + 1 := ⟨n - 1, by omega⟩
    rw [List.replicate_succ]
    simp only [calculate_entropy, foldl_min_replicate, foldl_max_replicate,
      eq_self_iff_true, if_true]

/-- Witness for C6 at the constant sequence of three fives. -/
theorem C6_constant_sequence_witness :
    calculate_variance (List.replicate 3 (5 : ℝ))
        (calculate_mean (List.replicate 3 (5 : ℝ))) = 0 ∧
      probe_cv (List.replicate 3 (5 : ℝ)) = 0 ∧
      calculate_entropy (List.replicate 3 (5 : ℝ)) = 0 :=
  C6_constant_sequence 3 5 (by norm_num)

/-- Helper: scaling every sample scales the list sum. -/
lemma sum_map_mul (k : ℝ) (l : List ℝ) : (l.map fun x => k * x).sum = k * l.sum := by
  induction l with
  | nil => simp
  | cons x xs ih => simp [ih, mul_add]

/-- Helper: scaling every sample scales the mean. -/
lemma mean_smul (k : ℝ) (l : List ℝ) :
    calculate_mean (l.map fun x => k * x) = k * calculate_mean l := by
  simp only [calculate_mean, List.length_map]
  split_ifs with h
  · simp
  · rw [sum_map_mul, mul_div_assoc]

/-- Helper: a constant factor distributes over a mapped sum. -/
lemma sum_map_mul_fun (a : ℝ) (f : ℝ → ℝ) (l : List ℝ) :
    (l.map fun x => a * f x).sum = a * (l.map f).sum := by
  induction l with
  | nil => simp
  | cons x xs ih => simp [ih, mul_add]

/-- Helper: scaling every sample by `k` scales the sample variance by `k^2`. -/
lemma variance_smul (k : ℝ) (l : List ℝ) (m : ℝ) :
    calculate_variance (l.map fun x => k * x) (k * m) =
      k ^ 2 * calculate_variance l m := by
  simp only [calculate_variance, List.length_map]
  split_ifs with h
  · simp
  · have hmap : ((l.map fun x => k * x).map fun v => (v - k * m) * (v - k * m)) =
        l.map fun x => k ^ 2 * ((x - m) * (x - m)) := by
      rw [List.map_map]
      congr 1
      funext x
      simp only [Function.comp_apply]
      ring
    rw [hmap, sum_map_mul_fun (k ^ 2) (fun x => (x - m) * (x - m)) l, mul_div_assoc]

/-- C7: the coefficient of variation computed through the probe pipeline is
scale-invariant: multiplying every sample by a positive constant leaves the
CV unchanged (exactly, in the real-number model of the doubles). -/
theorem C7_cv_scale_invariant :
    ∀ (S : List ℝ) (k : ℝ), 0 < k →
      probe_cv (S.map fun x => k * x) = probe_cv S := by
  intro S k hk
  simp only [probe_cv, mean_smul, variance_smul, calculate_std_dev]
  rw [Real.sqrt_mul (sq_nonneg k), Real.sqrt_sq hk.le]
  simp only [calculate_cv]
  by_cases hm : calculate_mean S = 0
  · rw [hm, mul_zero]
    simp
  · rw [if_neg (mul_ne_zero (ne_of_gt hk) hm), if_neg hm,
      mul_div_mul_left _ _ (ne_of_gt hk)]

/-- Witness for C7: scaling the sequence `[1, 2]` by `2`. -/
theorem C7_cv_scale_invariant_witness :
    probe_cv (List.map (fun x => (2 : ℝ) * x) [1, 2]) = probe_cv [1, 2] :=
  C7_cv_scale_invariant [1, 2] 2 (by norm_num)

/-- Helper: a left fold of `min` is below its seed and every element. -/
lemma foldl_min_le (vs : List ℝ) (v : ℝ) :
    vs.foldl min v ≤ v ∧ ∀ x ∈ vs, vs.foldl min v ≤ x := by
  induction vs generalizing v with
  | nil => simp
  | cons y ys ih =>
      obtain ⟨h1, h2⟩ := ih (min v y)
      refine ⟨h1.trans (min_le_left v y), ?_⟩
      intro x hx
      rcases List.mem_cons.mp hx with rfl | hx
      · exact h1.trans (min_le_right v x)
      · exact h2 x hx

/-- Helper: a left fold of `max` is above its seed and every element. -/
lemma le_foldl_max (vs : List ℝ) (v : ℝ) :
    v ≤ vs.foldl max v ∧ ∀ x ∈ vs, x ≤ vs.foldl max v := by
  induction vs generalizing v with
  | nil => simp
  | cons y ys ih =>
      obtain ⟨h1, h2⟩ := ih (max v y)
      refine ⟨(le_max_left v y).trans h1, ?_⟩
      intro x hx
      rcases List.mem_cons.mp hx with rfl | hx
      · exact (le_max_right v x).trans h1
      · exact h2 x hx

/-- Helper: with a positive bin width and a sample at or above the minimum,
the clamped bin index lies in `[0, 20)`. -/
lemma entropyBin_mem (min_val bin_width x : ℝ) (hw : 0 < bin_width)
    (hx : min_val ≤ x) :
    0 ≤ entropyBin min_val bin_width x ∧ entropyBin min_val bin_width x < 20 := by
  unfold entropyBin
  split_ifs with h
  · norm_num
  · exact ⟨Int.floor_nonneg.mpr (div_nonneg (by linarith) hw.le), not_le.mp h⟩

/-- Helper: when every entry of an integer list lies in `[0, n)`, the counts
of `0, ..., n-1` add up to the length. -/
lemma sum_count_range (n : ℕ) (l : List ℤ)
    (hl : ∀ x ∈ l, 0 ≤ x ∧ x < (n : ℤ)) :
    (Finset.range n).sum (fun i => l.count (i : ℤ)) = l.length := by
  induction l with
  | nil => simp
  | cons x xs ih =>
      have hx := hl x (List.mem_cons_self x xs)
      have hxs : ∀ y ∈ xs, 0 ≤ y ∧ y < (n : ℤ) :=
        fun y hy => hl y (List.mem_cons_of_mem x hy)
      obtain ⟨j, hj, rfl⟩ : ∃ j : ℕ, j < n ∧ (j : ℤ) = x :=
        ⟨x.toNat, by omega, by omega⟩
      have hone : (Finset.range n).sum
          (fun i => if (j : ℤ) = (i : ℤ) then 1 else 0) = 1 := by
        have : ∀ i : ℕ, ((j : ℤ) = (i : ℤ)) = (i = j) := by
          intro i
          simp [eq_comm, Nat.cast_inj]
        simp only [this]
        rw [Finset.sum_ite_eq' (Finset.range n) j (fun _ => 1),
          if_pos (Finset.mem_range.mpr hj)]
      calc (Finset.range n).sum (fun i => ((j : ℤ) :: xs).count (i : ℤ))
          = (Finset.range n).sum
            (fun i => xs.count (i : ℤ) + if (j : ℤ) = (i : ℤ) then 1 else 0) := by
            apply Finset.sum_congr rfl
            intro i _
            rw [List.count_cons]
            simp only [beq_iff_eq]
        _ = xs.length + 1 := by
            rw [Finset.sum_add_distrib, ih hxs, hone]
        _ = ((j : ℤ) :: xs).length := by
            simp

/-- Helper: the 20 histogram counts of `calculate_entropy` partition the
samples whenever the minimum is strictly below the maximum. -/
lemma histCount_partition (v : ℝ) (vs : List ℝ)
    (hlt : vs.foldl min v < vs.foldl max v) :
    (Finset.range 20).sum (fun i => histCount (vs.foldl min v)
        ((vs.foldl max v - vs.foldl min v) / 20) (i : ℤ) (v :: vs)) =
      (v :: vs).length := by
  have hw : 0 < (vs.foldl max v - vs.foldl min v) / 20 :=
    div_pos (by linarith) (by norm_num)
  have hmem : ∀ x ∈ (v :: vs).map
      (entropyBin (vs.foldl min v) ((vs.foldl max v - vs.foldl min v) / 20)),
      0 ≤ x ∧ x < (20 : ℤ) := by
    intro x hx
    simp only [List.mem_map] at hx
    obtain ⟨y, hy, rfl⟩ := hx
    have hmin : vs.foldl min v ≤ y := by
      rcases List.mem_cons.mp hy with rfl | hy
      · exact (foldl_min_le vs y).1
      · exact (foldl_min_le vs v).2 y hy
    exact entropyBin_mem _ _ _ hw hmin
  have := sum_count_range 20 ((v :: vs).map
    (entropyBin (vs.foldl min v) ((vs.foldl max v - vs.foldl min v) / 20))) hmem
  simpa [histCount] using this

/-- Helper: Gibbs-style bound on one entropy summand, from
`log x ≤ x - 1`: for `p ≥ 0`, `-(p log p) ≤ 1/20 - p + p log 20`. -/
lemma neg_mul_log_le (p : ℝ) (hp : 0 ≤ p) :
    -(p * Real.log p) ≤ 1 / 20 - p + p * Real.log 20 := by
  rcases eq_or_lt_of_le hp with h | h
  · rw [← h]
    norm_num
  · have h20 : 0 < (1 : ℝ) / (20 * p) := by positivity
    have hlog := Real.log_le_sub_one_of_pos h20
    have hrw : Real.log (1 / (20 * p)) = -(Real.log 20 + Real.log p) := by
      rw [one_div, Real.log_inv, Real.log_mul (by norm_num) (ne_of_gt h)]
    rw [hrw] at hlog
    have h1 : p * (-(Real.log 20 + Real.log p)) ≤ p * (1 / (20 * p) - 1) :=
      mul_le_mul_of_nonneg_left hlog h.le
    have h2 : p * (1 / (20 * p) - 1) = 1 / 20 - p := by
      field_simp
      ring
    have h3 : p * (-(Real.log 20 + Real.log p)) =
        -(p * Real.log p) - p * Real.log 20 := by
      ring
    linarith

/-- Helper: the Shannon sum of 20 histogram counts adding up to `n` lies in
`[0, log2 20]`. -/
lemma shannon_sum_bounds (n : ℕ) (h : ℕ → ℕ) (hn : 0 < n)
    (hsum : (Finset.range 20).sum (fun i => h i) = n)
    (hle : ∀ i, h i ≤ n) :
    0 ≤ (Finset.range 20).sum (fun i =>
        if 0 < h i then -(((h i : ℝ) / (n : ℝ)) * Real.logb 2 ((h i : ℝ) / (n : ℝ)))
        else 0) ∧
      (Finset.range 20).sum (fun i =>
        if 0 < h i then -(((h i : ℝ) / (n : ℝ)) * Real.logb 2 ((h i : ℝ) / (n : ℝ)))
        else 0) ≤ Real.logb 2 20 := by
  have hnR : 0 < (n : ℝ) := by exact_mod_cast hn
  constructor
  · apply Finset.sum_nonneg
    intro i _
    split_ifs with hi
    · have hp0 : 0 ≤ (h i : ℝ) / (n : ℝ) :=
        div_nonneg (Nat.cast_nonneg _) (Nat.cast_nonneg _)
      have hp1 : (h i : ℝ) / (n : ℝ) ≤ 1 := by
        rw [div_le_one hnR]
        exact_mod_cast hle i
      have hlb := Real.logb_nonpos (by norm_num : (1 : ℝ) < 2) hp0 hp1
      exact neg_nonneg.mpr (mul_nonpos_iff.mpr (Or.inl ⟨hp0, hlb⟩))
    · exact le_refl 0
  · have hterm : ∀ i ∈ Finset.range 20,
        (if 0 < h i then -(((h i : ℝ) / (n : ℝ)) * Real.logb 2 ((h i : ℝ) / (n : ℝ)))
          else 0) =
          -(((h i : ℝ) / (n : ℝ)) * Real.log ((h i : ℝ) / (n : ℝ))) / Real.log 2 := by
      intro i _
      split_ifs with hi
      · simp only [Real.logb]
        ring
      · have hz : h i = 0 := by omega
        simp [hz]
    rw [Finset.sum_congr rfl hterm, ← Finset.sum_div]
    have hlog2 : 0 < Real.log 2 := Real.log_pos (by norm_num)
    have hsum_p : (Finset.range 20).sum (fun i => ((h i : ℝ) / (n : ℝ))) = 1 := by
      rw [← Finset.sum_div]
      have hc : (Finset.range 20).sum (fun i => ((h i : ℝ))) = (n : ℝ) := by
        exact_mod_cast hsum
      rw [hc, div_self (ne_of_gt hnR)]
    have hbound : (Finset.range 20).sum
        (fun i => -(((h i : ℝ) / (n : ℝ)) * Real.log ((h i : ℝ) / (n : ℝ)))) ≤
          Real.log 20 := by
      have hstep : (Finset.range 20).sum
          (fun i => -(((h i : ℝ) / (n : ℝ)) * Real.log ((h i : ℝ) / (n : ℝ)))) ≤
            (Finset.range 20).sum (fun i => 1 / 20 - ((h i : ℝ) / (n : ℝ)) +
              ((h i : ℝ) / (n : ℝ)) * Real.log 20) := by
        apply Finset.sum_le_sum
        intro i _
        exact neg_mul_log_le ((h i : ℝ) / (n : ℝ))
          (div_nonneg (Nat.cast_nonneg _) (Nat.cast_nonneg _))
      have hsplit : (Finset.range 20).sum (fun i => 1 / 20 - ((h i : ℝ) / (n : ℝ)) +
          ((h i : ℝ) / (n : ℝ)) * Real.log 20) = Real.log 20 := by
        rw [Finset.sum_add_distrib, Finset.sum_sub_distrib, ← Finset.sum_mul,
          hsum_p, Finset.sum_const, Finset.card_range]
        norm_num
      linarith
    rw [← Real.log_div_log]
    exact (div_le_div_iff_of_pos_right hlog2).mpr hbound

/-- C10: `calculate_entropy` always returns a value in `[0, log2 20]`; in the
non-degenerate case the 20 clamped bins partition the samples (their counts
add up to the sample count) and the maximum sample, whose computed bin index
reaches 20, is clamped into the last bin (index 19). -/
theorem C10_entropy_bounds :
    ∀ (values : List ℝ),
      (0 ≤ calculate_entropy values ∧ calculate_entropy values ≤ Real.logb 2 20) ∧
      (∀ v vs, values = v :: vs → vs.foldl min v < vs.foldl max v →
        (Finset.range 20).sum (fun i => histCount (vs.foldl min v)
            ((vs.foldl max v - vs.foldl min v) / 20) (i : ℤ) values) = values.length ∧
        entropyBin (vs.foldl min v) ((vs.foldl max v - vs.foldl min v) / 20)
          (vs.foldl max v) = 19) := by
  intro values
  have hlogb20 : 0 ≤ Real.logb 2 20 :=
    Real.logb_nonneg (by norm_num) (by norm_num)
  constructor
  · match values with
    | [] => exact ⟨le_refl 0, hlogb20⟩
    | v :: vs =>
        by_cases hdeg : vs.foldl min v = vs.foldl max v
        · simp only [calculate_entropy, hdeg, eq_self_iff_true, if_true]
          exact ⟨le_refl 0, hlogb20⟩
        · have hlt : vs.foldl min v < vs.foldl max v :=
            lt_of_le_of_ne ((foldl_min_le vs v).1.trans (le_foldl_max vs v).1) hdeg
          have hpart := histCount_partition v vs hlt
          have hle : ∀ i : ℕ, histCount (vs.foldl min v)
              ((vs.foldl max v - vs.foldl min v) / 20) (i : ℤ) (v :: vs) ≤
                (v :: vs).length := by
            intro i
            have := List.count_le_length ((i : ℤ)) ((v :: vs).map
              (entropyBin (vs.foldl min v) ((vs.foldl max v - vs.foldl min v) / 20)))
            simpa [histCount] using this
          have hb := shannon_sum_bounds ((v :: vs).length)
            (fun i => histCount (vs.foldl min v)
              ((vs.foldl max v - vs.foldl min v) / 20) (i : ℤ) (v :: vs))
            (by simp) hpart hle
          simp only [calculate_entropy, if_neg hdeg]
          exact hb
  · intro v vs hv hlt
    subst hv
    refine ⟨histCount_partition v vs hlt, ?_⟩
    have hne : vs.foldl max v - vs.foldl min v ≠ 0 := by linarith
    have h20 : (vs.foldl max v - vs.foldl min v) /
        ((vs.foldl max v - vs.foldl min v) / 20) = 20 := by
      field_simp
    unfold entropyBin
    rw [h20]
    norm_num

/-- Witness for C10 at the concrete sequence `[0, 1]`: the two occupied bins
hold all two samples, and the maximum lands in bin 19. -/
theorem C10_entropy_bounds_witness :
    (Finset.range 20).sum (fun i => histCount (List.foldl min (0 : ℝ) [1])
        ((List.foldl max (0 : ℝ) [1] - List.foldl min (0 : ℝ) [1]) / 20) (i : ℤ)
        [0, 1]) = (([0, 1] : List ℝ)).length ∧
      entropyBin (List.foldl min (0 : ℝ) [1])
        ((List.foldl max (0 : ℝ) [1] - List.foldl min (0 : ℝ) [1]) / 20)
        (List.foldl max (0 : ℝ) [1]) = 19 :=
  (C10_entropy_bounds [0, 1]).2 0 [1] rfl
    (by norm_num [List.foldl, min_def, max_def])

end Vmtest
